import Mathlib

/-!
Shallow embedding of the snake game core from `src/app/page.tsx`.

Coordinates are integer pairs (`Vec`); grid positions and unit directions both
use this type, mirroring the `Vec` type of the source.  The real-time parts
(canvas, event wiring) are not modelled; the simulation step, the input
handlers, the food sampler and the reset routine are translated directly.
The random number generator behind `randFood` is reified as the list of
candidate cells it would produce; the food respawn inside `step` and `reset`
is abstracted as a function argument `fg` standing for the sampler.
-/

namespace Snake

/-- `Vec` from the source: an integer pair used as a grid cell or a unit
direction. -/
structure Vec where
  x : Int
  y : Int
deriving DecidableEq, Repr

instance : Inhabited Vec := ⟨⟨0, 0⟩⟩

/-- `EQ` from the source: componentwise equality test of two vectors. -/
def EQ (a b : Vec) : Bool := a.x == b.x && a.y == b.y

/-- `add` from the source: componentwise vector addition. -/
def add (a b : Vec) : Vec := ⟨a.x + b.x, a.y + b.y⟩

/-- `opposite` from the source: `a` is the exact 180-degree reverse of `b`. -/
def opposite (a b : Vec) : Bool := a.x == -b.x && a.y == -b.y

/-- `GameState` from the source.  The rendering-only field `cell` (pixel size
of a cell) is omitted; `grace` is in milliseconds. -/
structure GameState where
  gridSize : Nat
  snake : List Vec
  dir : Vec
  nextDir : Vec
  food : Vec
  score : Nat
  tickMs : Nat
  grace : Int
deriving DecidableEq, Repr

/-- `DIRS` lookup / `getDirForCode` from the source: maps a key code to a unit
direction, `none` for unrecognized codes. -/
def getDirForCode (code : String) : Option Vec :=
  if code = "ArrowUp" then some ⟨0, -1⟩
  else if code = "ArrowDown" then some ⟨0, 1⟩
  else if code = "ArrowLeft" then some ⟨-1, 0⟩
  else if code = "ArrowRight" then some ⟨1, 0⟩
  else if code = "KeyW" then some ⟨0, -1⟩
  else if code = "KeyS" then some ⟨0, 1⟩
  else if code = "KeyA" then some ⟨-1, 0⟩
  else if code = "KeyD" then some ⟨1, 0⟩
  else none

/-- `onKey` from the source (lines 128-136): a recognized key writes the
pending direction only when it is not the reverse of the current direction,
and then sets the grace timer to 250 unconditionally. -/
def onKey (code : String) (st : GameState) : GameState :=
  match getDirForCode code with
  | none => st
  | some d =>
    let st1 := if opposite d st.dir then st else { st with nextDir := d }
    { st1 with grace := 250 }

/-- Swipe classification from `handleTouchEnd` (lines 154-177): below the
30-unit threshold no direction is produced; otherwise the axis with the larger
absolute displacement wins, ties going to the vertical branch as in the
source's `absX > absY` test. -/
def classifySwipe (deltaX deltaY : Int) : Option Vec :=
  let absX := deltaX.natAbs
  let absY := deltaY.natAbs
  if max absX absY < 30 then none
  else if absX > absY then
    some (if deltaX > 0 then ⟨1, 0⟩ else ⟨-1, 0⟩)
  else
    some (if deltaY > 0 then ⟨0, 1⟩ else ⟨0, -1⟩)

/-- `handleTouchEnd` from the source (lines 148-188), with the touch deltas as
arguments: commits the classified direction and resets grace only when the
direction is not a reversal. -/
def handleTouchEnd (deltaX deltaY : Int) (st : GameState) : GameState :=
  match classifySwipe deltaX deltaY with
  | none => st
  | some d =>
    if opposite d st.dir then st
    else { st with nextDir := d, grace := 250 }

/-- `randFood` from the source (lines 35-40), with the stream of random draws
`Math.floor(Math.random()*gridSize)` pairs reified as the candidate list:
returns the first candidate not on the snake, `none` if the list runs out. -/
def randFood (gridSize : Nat) (snake : List Vec) : List Vec → Option Vec
  | [] => none
  | c :: rest =>
    if snake.any (fun s => EQ s c) then randFood gridSize snake rest else some c

/-- The speed curve applied on eating (line 258):
`170 - Math.floor((170 - 80) * Math.min(score, 30) / 30)`.  All quantities are
non-negative and `Nat` division is the floor. -/
def tickMsFor (score : Nat) : Nat := 170 - 90 * min score 30 / 30

/-- The direction commit at the top of a tick (line 235): the pending
direction becomes current unless it reverses the current direction. -/
def committedDir (st : GameState) : Vec :=
  if opposite st.nextDir st.dir then st.dir else st.nextDir

/-- The candidate head of a tick (line 236): `add(st.snake[0], st.dir)` after
the commit.  `headI` returns the head of the (always nonempty during play)
snake list. -/
def candidateHead (st : GameState) : Vec :=
  add st.snake.headI (committedDir st)

/-- The wall test of the collision detector (lines 237-241): some coordinate
of the candidate lies outside `[0, gridSize)`. -/
def hitWallB (gridSize : Nat) (c : Vec) : Bool :=
  decide (c.x < 0) || decide (c.y < 0) ||
    decide (c.x ≥ (gridSize : Int)) || decide (c.y ≥ (gridSize : Int))

/-- The self test of the collision detector (line 242): the candidate equals
some cell of the pre-move snake body. -/
def hitSelfB (snake : List Vec) (c : Vec) : Bool :=
  snake.any fun s => EQ s c

/-- The combined collision test of a tick, on the pre-move body. -/
def collides (st : GameState) : Bool :=
  hitWallB st.gridSize (candidateHead st) || hitSelfB st.snake (candidateHead st)

/-- Result of one tick: the new state plus the React-managed flags the tick
writes (`setGameOver`, `setRunning`, `setBest`). `running` is the value of the
running flag after the tick (the loop body only runs while it is true). -/
structure TickResult where
  st : GameState
  gameOver : Bool
  running : Bool
  best : Nat
deriving Repr

/-- One iteration of the catch-up loop body, `step` lines 235-261:
commit direction, compute the candidate head, test collisions against the
pre-move body; a collision with no grace ends the game (best becomes
`max best score`, ticking stops); a collision under grace zeroes the grace
and leaves the snake unchanged; otherwise the head is pushed, and either the
food is eaten (score up, food respawned via the sampler `fg`, speed curve
applied) or the tail is popped. -/
def step (fg : Nat → List Vec → Vec) (best : Nat) (st0 : GameState) : TickResult :=
  let st1 := { st0 with dir := committedDir st0 }
  let newHead := candidateHead st0
  if collides st0 && decide (st0.grace ≤ 0) then
    ⟨st1, true, false, max best st1.score⟩
  else if collides st0 then
    ⟨{ st1 with grace := 0 }, false, true, best⟩
  else
    let snake1 := newHead :: st1.snake
    if EQ newHead st1.food then
      ⟨{ st1 with
          snake := snake1
          score := st1.score + 1
          food := fg st1.gridSize snake1
          tickMs := tickMsFor (st1.score + 1) },
        false, true, best⟩
    else
      ⟨{ st1 with snake := snake1.dropLast }, false, true, best⟩

/-- `reset` from the source (lines 87-113), with the food sampler abstracted
as `fg`: a fresh state on a 14-cell grid, a two-cell snake at the center
heading right, score 0, base tick interval, no grace. -/
def reset (fg : Nat → List Vec → Vec) : GameState :=
  let gridSize : Nat := 14
  let c : Int := (gridSize : Int) / 2
  let snake : List Vec := [⟨c, c⟩, ⟨c - 1, c⟩]
  let d : Vec := ⟨1, 0⟩
  { gridSize := gridSize, snake := snake, dir := d, nextDir := d,
    food := fg gridSize snake, score := 0, tickMs := 170, grace := 0 }

/-- `useBestScore`'s initial read (lines 44-49): 0 when no window exists;
otherwise `Number(localStorage.getItem(key))` is kept when finite and
replaced by 0 otherwise.  The platform coercion `Number(...)` is abstracted
at the boundary: `coerced` is its already-computed result on the slot
content, `none` standing for a non-finite result (NaN or an infinity) and
`some v` for a finite value — e.g. the string of negative five coerces to
`some (-5)`, an absent slot (where `getItem` yields `null` and
`Number(null) = 0`) to `some 0`, and a non-numeric string to `none`.  The
body is then exactly `Number.isFinite(v) ? v : 0`. -/
def loadBest (windowAvailable : Bool) (coerced : Option ℚ) : ℚ :=
  if !windowAvailable then 0
  else
    match coerced with
    | some v => v
    | none => 0

/-- The cell `⟨i % N, i / N⟩` enumeration of the `N × N` grid, used as the
canonical exhaustive candidate sequence for the sampler. -/
def allCells (N : Nat) : List Vec :=
  (List.range (N * N)).map fun i => ⟨((i % N : Nat) : Int), ((i / N : Nat) : Int)⟩

/-- A cell lies on the `N × N` grid. -/
def inGrid (N : Nat) (c : Vec) : Prop :=
  0 ≤ c.x ∧ c.x < (N : Int) ∧ 0 ≤ c.y ∧ c.y < (N : Int)

instance (N : Nat) (c : Vec) : Decidable (inGrid N c) := by
  unfold inGrid; infer_instance

/-- The four unit directions the Direction Mapper can produce. -/
def isUnitDir (d : Vec) : Prop :=
  d = ⟨1, 0⟩ ∨ d = ⟨-1, 0⟩ ∨ d = ⟨0, 1⟩ ∨ d = ⟨0, -1⟩

instance (d : Vec) : Decidable (isUnitDir d) := by
  unfold isUnitDir; infer_instance

/-- The play invariant: snake on the grid, no duplicate cells, length at
least 2, current and pending directions unit vectors. -/
def Invariant (st : GameState) : Prop :=
  (∀ c ∈ st.snake, inGrid st.gridSize c) ∧
    st.snake.Nodup ∧
    2 ≤ st.snake.length ∧
    isUnitDir st.dir ∧
    isUnitDir st.nextDir

instance (st : GameState) : Decidable (Invariant st) := by
  unfold Invariant; infer_instance

/-- A constant food sampler used to instantiate the abstracted sampler `fg`
on concrete runs. -/
def fg0 : Nat → List Vec → Vec := fun _ _ => ⟨0, 0⟩

/-- A sample mid-play state: the fresh snake with food far away. -/
def stPlay : GameState := ⟨14, [⟨7, 7⟩, ⟨6, 7⟩], ⟨1, 0⟩, ⟨1, 0⟩, ⟨12, 12⟩, 0, 170, 0⟩

/-- A sample state one tick away from eating the food at `(8,7)`. -/
def stEat : GameState := ⟨14, [⟨7, 7⟩, ⟨6, 7⟩], ⟨1, 0⟩, ⟨1, 0⟩, ⟨8, 7⟩, 0, 170, 0⟩

/-- A sample state one tick away from the east wall, with no grace left. -/
def stWall : GameState := ⟨14, [⟨13, 7⟩, ⟨12, 7⟩], ⟨1, 0⟩, ⟨1, 0⟩, ⟨0, 0⟩, 5, 170, 0⟩

/-- The same wall-bound state with 120 ms of grace remaining. -/
def stWallGrace : GameState := ⟨14, [⟨13, 7⟩, ⟨12, 7⟩], ⟨1, 0⟩, ⟨1, 0⟩, ⟨0, 0⟩, 5, 170, 120⟩

theorem EQ_iff (a b : Vec) : EQ a b = true ↔ a = b := by
  cases a; cases b; simp [EQ, Vec.mk.injEq]

theorem hitSelfB_iff (snake : List Vec) (c : Vec) :
    hitSelfB snake c = true ↔ c ∈ snake := by
  simp [hitSelfB, List.any_eq_true, EQ_iff]

theorem hitWallB_iff (N : Nat) (c : Vec) :
    hitWallB N c = true ↔ ¬ inGrid N c := by
  simp [hitWallB, inGrid]
  omega

theorem step_eq_gameOver (fg : Nat → List Vec → Vec) (best : Nat) (st : GameState)
    (hc : collides st = true) (hg : st.grace ≤ 0) :
    step fg best st =
      ⟨{ st with dir := committedDir st }, true, false, max best st.score⟩ := by
  unfold step
  rw [hc]
  simp [hg]

theorem step_eq_graceSave (fg : Nat → List Vec → Vec) (best : Nat) (st : GameState)
    (hc : collides st = true) (hg : ¬ st.grace ≤ 0) :
    step fg best st =
      ⟨{ st with dir := committedDir st, grace := 0 }, false, true, best⟩ := by
  unfold step
  rw [hc]
  simp [hg]

theorem step_eq_eat (fg : Nat → List Vec → Vec) (best : Nat) (st : GameState)
    (hc : collides st = false) (hf : candidateHead st = st.food) :
    step fg best st =
      ⟨{ st with
          dir := committedDir st
          snake := candidateHead st :: st.snake
          score := st.score + 1
          food := fg st.gridSize (candidateHead st :: st.snake)
          tickMs := tickMsFor (st.score + 1) },
        false, true, best⟩ := by
  unfold step
  rw [hc]
  simp [(EQ_iff _ _).mpr hf]

theorem step_eq_move (fg : Nat → List Vec → Vec) (best : Nat) (st : GameState)
    (hc : collides st = false) (hf : candidateHead st ≠ st.food) :
    step fg best st =
      ⟨{ st with
          dir := committedDir st
          snake := (candidateHead st :: st.snake).dropLast },
        false, true, best⟩ := by
  unfold step
  rw [hc]
  have : EQ (candidateHead st) st.food = false := by
    rw [← Bool.not_eq_true, EQ_iff]; exact hf
  simp [this]

/-- C1, counterexample: the key handler does not leave the grace timer
unchanged on a reversing input.  On the fresh play state (moving right,
grace 0), the recognized key code for leftwards — the exact opposite of the
current direction — leaves the pending direction unchanged but still sets the
grace timer to 250 ms. -/
theorem onKey_reversal_grace_cex :
    getDirForCode "ArrowLeft" = some ⟨-1, 0⟩ ∧
    opposite ⟨-1, 0⟩ stPlay.dir = true ∧
    (onKey "ArrowLeft" stPlay).nextDir = stPlay.nextDir ∧
    stPlay.grace = 0 ∧
    (onKey "ArrowLeft" stPlay).grace = 250 := by
  refine ⟨rfl, rfl, rfl, rfl, rfl⟩

/-- C1, amended: on a reversing recognized input, both handlers leave the
pending direction unchanged; the swipe handler also leaves the grace timer
unchanged, but the key handler resets grace to 250 ms on every recognized
key, reversing or not.  On a non-reversing recognized input, both handlers
commit the direction and reset grace to 250 ms; unrecognized inputs are
no-ops. -/
theorem input_grace_policy :
    (∀ (st : GameState) (code : String) (d : Vec),
      getDirForCode code = some d → opposite d st.dir = true →
        (onKey code st).nextDir = st.nextDir ∧ (onKey code st).grace = 250) ∧
    (∀ (st : GameState) (code : String) (d : Vec),
      getDirForCode code = some d → opposite d st.dir = false →
        (onKey code st).nextDir = d ∧ (onKey code st).grace = 250) ∧
    (∀ (st : GameState) (code : String),
      getDirForCode code = none → onKey code st = st) ∧
    (∀ (st : GameState) (dx dy : Int) (d : Vec),
      classifySwipe dx dy = some d → opposite d st.dir = true →
        handleTouchEnd dx dy st = st) ∧
    (∀ (st : GameState) (dx dy : Int) (d : Vec),
      classifySwipe dx dy = some d → opposite d st.dir = false →
        (handleTouchEnd dx dy st).nextDir = d ∧
          (handleTouchEnd dx dy st).grace = 250) ∧
    (∀ (st : GameState) (dx dy : Int),
      classifySwipe dx dy = none → handleTouchEnd dx dy st = st) := by
  refine ⟨?_, ?_, ?_, ?_, ?_, ?_⟩
  · intro st code d hcd hop
    simp [onKey, hcd, hop]
  · intro st code d hcd hop
    simp [onKey, hcd, hop]
  · intro st code hcd
    simp [onKey, hcd]
  · intro st dx dy d hsw hop
    simp [handleTouchEnd, hsw, hop]
  · intro st dx dy d hsw hop
    simp [handleTouchEnd, hsw, hop]
  · intro st dx dy hsw
    simp [handleTouchEnd, hsw]

theorem input_grace_policy_witness :
    ((onKey "ArrowLeft" stPlay).nextDir = stPlay.nextDir ∧
      (onKey "ArrowLeft" stPlay).grace = 250) ∧
    ((onKey "KeyW" stPlay).nextDir = ⟨0, -1⟩ ∧ (onKey "KeyW" stPlay).grace = 250) ∧
    onKey "Escape" stPlay = stPlay ∧
    handleTouchEnd (-40) 0 stPlay = stPlay ∧
    ((handleTouchEnd 0 (-40) stPlay).nextDir = ⟨0, -1⟩ ∧
      (handleTouchEnd 0 (-40) stPlay).grace = 250) ∧
    handleTouchEnd 10 5 stPlay = stPlay := by
  obtain ⟨h1, h2, h3, h4, h5, h6⟩ := input_grace_policy
  exact ⟨h1 stPlay "ArrowLeft" ⟨-1, 0⟩ rfl rfl,
    h2 stPlay "KeyW" ⟨0, -1⟩ rfl rfl,
    h3 stPlay "Escape" rfl,
    h4 stPlay (-40) 0 ⟨-1, 0⟩ (by decide) (by decide),
    h5 stPlay 0 (-40) ⟨0, -1⟩ (by decide) (by decide),
    h6 stPlay 10 5 (by decide)⟩

/-- C5: at the direction-commit step of a tick, a reversing pending direction
leaves the current direction unchanged, otherwise the pending direction
becomes current; the state after `step` carries exactly the committed
direction, and when the current direction is one of the four unit vectors the
committed direction is never its exact 180-degree reverse. -/
theorem commit_no_reversal (st : GameState) :
    (opposite st.nextDir st.dir = true → committedDir st = st.dir) ∧
    (opposite st.nextDir st.dir = false → committedDir st = st.nextDir) ∧
    (∀ (fg : Nat → List Vec → Vec) (best : Nat),
      (step fg best st).st.dir = committedDir st) ∧
    (isUnitDir st.dir → opposite (committedDir st) st.dir = false) := by
  refine ⟨?_, ?_, ?_, ?_⟩
  · intro h; simp [committedDir, h]
  · intro h; simp [committedDir, h]
  · intro fg best
    unfold step
    split
    · rfl
    · split
      · rfl
      · simp only []
        split <;> rfl
  · intro hu
    by_cases h : opposite st.nextDir st.dir = true
    · rw [(by simp [committedDir, h] : committedDir st = st.dir)]
      rcases hu with h1 | h1 | h1 | h1 <;> rw [h1] <;> rfl
    · have h' : opposite st.nextDir st.dir = false := by
        exact Bool.not_eq_true _ ▸ eq_false_of_ne_true h
      rw [(by simp [committedDir, h'] : committedDir st = st.nextDir)]
      exact h'

theorem commit_no_reversal_witness :
    committedDir stWall = stWall.dir ∧
    (step fg0 3 stWall).st.dir = committedDir stWall ∧
    opposite (committedDir stWall) stWall.dir = false := by
  obtain ⟨h1, h2, h3, h4⟩ := commit_no_reversal stWall
  exact ⟨h2 (by decide), h3 fg0 3, h4 (by decide)⟩

/-- C7: the tick interval recomputed on eating is the clamped linear
interpolation from 170 ms at score 0 down to the 80 ms floor at every score
at least 30, with 125 ms at score 15; the interval is monotonically
non-increasing in the score, and a food-eating tick installs exactly this
interval for the incremented score. -/
theorem speed_curve :
    tickMsFor 0 = 170 ∧ tickMsFor 15 = 125 ∧
    (∀ s, 30 ≤ s → tickMsFor s = 80) ∧
    (∀ s t, s ≤ t → tickMsFor t ≤ tickMsFor s) ∧
    (∀ (fg : Nat → List Vec → Vec) (best : Nat) (st : GameState),
      collides st = false → candidateHead st = st.food →
        (step fg best st).st.tickMs = tickMsFor (st.score + 1)) := by
  refine ⟨rfl, rfl, ?_, ?_, ?_⟩
  · intro s hs; unfold tickMsFor; omega
  · intro s t h; unfold tickMsFor; omega
  · intro fg best st hc hf
    rw [step_eq_eat fg best st hc hf]

theorem speed_curve_witness :
    tickMsFor 45 = 80 ∧ tickMsFor 20 ≤ tickMsFor 10 ∧
    (step fg0 0 stEat).st.tickMs = tickMsFor 1 := by
  obtain ⟨h1, h2, h3, h4, h5⟩ := speed_curve
  exact ⟨h3 45 (by decide), h4 10 20 (by decide), h5 fg0 0 stEat (by decide) (by decide)⟩

/-- C2: on a tick whose candidate head collides, if no grace remains the game
transitions to the terminal game-over state, ticking stops, the best score
becomes `max` of the previous best and the current score, and the snake does
not move; if grace remains the game does not end, the grace counter is zeroed,
and the snake is unchanged this tick. -/
theorem collision_tick_policy (fg : Nat → List Vec → Vec) (best : Nat)
    (st : GameState) (hc : collides st = true) :
    (st.grace ≤ 0 →
      (step fg best st).gameOver = true ∧
      (step fg best st).running = false ∧
      (step fg best st).best = max best st.score ∧
      (step fg best st).st.snake = st.snake) ∧
    (0 < st.grace →
      (step fg best st).gameOver = false ∧
      (step fg best st).st.grace = 0 ∧
      (step fg best st).st.snake = st.snake ∧
      (step fg best st).best = best) := by
  constructor
  · intro hg
    rw [step_eq_gameOver fg best st hc hg]
    exact ⟨rfl, rfl, rfl, rfl⟩
  · intro hg
    rw [step_eq_graceSave fg best st hc (by omega)]
    exact ⟨rfl, rfl, rfl, rfl⟩

theorem collision_tick_policy_witness :
    (step fg0 3 stWall).gameOver = true ∧
    (step fg0 3 stWall).running = false ∧
    (step fg0 3 stWall).best = 5 ∧
    (step fg0 3 stWall).st.snake = stWall.snake ∧
    (step fg0 3 stWallGrace).gameOver = false ∧
    (step fg0 3 stWallGrace).st.grace = 0 ∧
    (step fg0 3 stWallGrace).st.snake = stWallGrace.snake ∧
    (step fg0 3 stWallGrace).best = 3 := by
  have h1 := (collision_tick_policy fg0 3 stWall (by decide)).1 (by decide)
  have h2 := (collision_tick_policy fg0 3 stWallGrace (by decide)).2 (by decide)
  refine ⟨h1.1, h1.2.1, ?_, h1.2.2.2, h2.1, h2.2.1, h2.2.2.1, h2.2.2.2⟩
  rw [h1.2.2.1]; rfl

/-- C3: the wall test holds exactly when some coordinate of the candidate is
outside `[0, N)`, the self test holds exactly when the candidate equals some
cell of the body it is given, the self test accepts the tail cell (the one
vacated on a non-growth tick), and the tick's combined collision test runs
both on the pre-move snake body. -/
theorem collision_test_spec (N : Nat) (snake : List Vec) (c : Vec) :
    (hitWallB N c = true ↔ ¬ inGrid N c) ∧
    (hitSelfB snake c = true ↔ c ∈ snake) ∧
    (∀ t, snake.getLast? = some t → hitSelfB snake t = true) ∧
    (∀ st : GameState,
      collides st =
        (hitWallB st.gridSize (candidateHead st) ||
          hitSelfB st.snake (candidateHead st))) := by
  refine ⟨hitWallB_iff N c, hitSelfB_iff snake c, ?_, fun _ => rfl⟩
  intro t ht
  obtain ⟨hne, heq⟩ := List.mem_getLast?_eq_getLast (Option.mem_def.mpr ht)
  subst heq
  exact (hitSelfB_iff snake _).mpr (List.getLast_mem hne)

theorem collision_test_spec_witness :
    hitWallB 14 ⟨-1, 7⟩ = true ∧
    hitSelfB [⟨7, 7⟩, ⟨6, 7⟩] ⟨6, 7⟩ = true := by
  have h1 := collision_test_spec 14 ([] : List Vec) ⟨-1, 7⟩
  have h2 := collision_test_spec 14 [⟨7, 7⟩, ⟨6, 7⟩] (⟨6, 7⟩ : Vec)
  exact ⟨h1.1.mpr (by decide), h2.2.2.1 ⟨6, 7⟩ rfl⟩

/-- C4: eating grows the snake by exactly one cell (head added, tail kept)
and raises the score by one; a collision-free non-eating tick keeps the
length net unchanged (head added, tail removed); a collision tick leaves the
snake unchanged. -/
theorem step_growth (fg : Nat → List Vec → Vec) (best : Nat) (st : GameState) :
    (collides st = true → (step fg best st).st.snake = st.snake) ∧
    (collides st = false → candidateHead st = st.food →
      (step fg best st).st.snake = candidateHead st :: st.snake ∧
      (step fg best st).st.snake.length = st.snake.length + 1 ∧
      (step fg best st).st.score = st.score + 1) ∧
    (collides st = false → candidateHead st ≠ st.food →
      (step fg best st).st.snake = (candidateHead st :: st.snake).dropLast ∧
      (step fg best st).st.snake.length = st.snake.length ∧
      (step fg best st).st.score = st.score) := by
  refine ⟨?_, ?_, ?_⟩
  · intro hc
    by_cases hg : st.grace ≤ 0
    · rw [step_eq_gameOver fg best st hc hg]
    · rw [step_eq_graceSave fg best st hc hg]
  · intro hc hf
    rw [step_eq_eat fg best st hc hf]
    exact ⟨rfl, by simp, rfl⟩
  · intro hc hf
    rw [step_eq_move fg best st hc hf]
    refine ⟨rfl, ?_, rfl⟩
    simp [List.length_dropLast]

theorem step_growth_witness :
    (step fg0 0 stEat).st.snake = [⟨8, 7⟩, ⟨7, 7⟩, ⟨6, 7⟩] ∧
    (step fg0 0 stEat).st.snake.length = 3 ∧
    (step fg0 0 stEat).st.score = 1 := by
  have h := (step_growth fg0 0 stEat).2.1 (by decide) (by decide)
  refine ⟨?_, ?_, h.2.2⟩
  · rw [h.1]; rfl
  · rw [h.2.1]; rfl

theorem length_allCells (N : Nat) : (allCells N).length = N * N := by
  simp [allCells]

theorem nodup_allCells (N : Nat) : (allCells N).Nodup := by
  apply List.Nodup.map_on ?_ (List.nodup_range _)
  intro i hi j hj hij
  rw [List.mem_range] at hi hj
  rw [Vec.mk.injEq] at hij
  obtain ⟨hx', hy'⟩ := hij
  have hx : i % N = j % N := by exact_mod_cast hx'
  have hy : i / N = j / N := by exact_mod_cast hy'
  calc i = N * (i / N) + i % N := (Nat.div_add_mod i N).symm
    _ = N * (j / N) + j % N := by rw [hx, hy]
    _ = j := Nat.div_add_mod j N

theorem mem_allCells (N : Nat) (hN : 0 < N) (c : Vec) :
    c ∈ allCells N ↔ inGrid N c := by
  constructor
  · intro hm
    obtain ⟨i, hi, rfl⟩ := List.mem_map.mp hm
    rw [List.mem_range] at hi
    have hmod : i % N < N := Nat.mod_lt i hN
    have hdiv : i / N < N := Nat.div_lt_of_lt_mul hi
    refine ⟨Int.ofNat_nonneg _, ?_, Int.ofNat_nonneg _, ?_⟩
    · show ((i % N : Nat) : Int) < (N : Int)
      exact_mod_cast hmod
    · show ((i / N : Nat) : Int) < (N : Int)
      exact_mod_cast hdiv
  · rintro ⟨hx0, hxN, hy0, hyN⟩
    have hax : ((c.x.toNat : Int)) = c.x := Int.toNat_of_nonneg hx0
    have hay : ((c.y.toNat : Int)) = c.y := Int.toNat_of_nonneg hy0
    have hxlt : c.x.toNat < N := by omega
    have hylt : c.y.toNat < N := by omega
    refine List.mem_map.mpr ⟨c.y.toNat * N + c.x.toNat, List.mem_range.mpr ?_, ?_⟩
    · calc c.y.toNat * N + c.x.toNat
          < c.y.toNat * N + N := Nat.add_lt_add_left hxlt _
        _ = (c.y.toNat + 1) * N := (Nat.succ_mul _ _).symm
        _ ≤ N * N := Nat.mul_le_mul_right N hylt
    · have hmod : (c.y.toNat * N + c.x.toNat) % N = c.x.toNat := by
        rw [Nat.add_comm, Nat.add_mul_mod_self_right, Nat.mod_eq_of_lt hxlt]
      have hdiv : (c.y.toNat * N + c.x.toNat) / N = c.y.toNat := by
        rw [Nat.add_comm, Nat.add_mul_div_right _ _ hN, Nat.div_eq_of_lt hxlt,
          Nat.zero_add]
      rw [hmod, hdiv, hax, hay]

theorem randFood_first_free (gridSize : Nat) (snake : List Vec) :
    ∀ cands : List Vec, (∃ c ∈ cands, c ∉ snake) →
      ∃ f, randFood gridSize snake cands = some f ∧ f ∈ cands ∧ f ∉ snake := by
  intro cands
  induction cands with
  | nil => rintro ⟨c, hc, _⟩; cases hc
  | cons c rest ih =>
    rintro ⟨w, hw, hwn⟩
    by_cases hcs : c ∈ snake
    · have hany : snake.any (fun s => EQ s c) = true := by
        rw [List.any_eq_true]
        exact ⟨c, hcs, (EQ_iff c c).mpr rfl⟩
      have hw' : w ∈ rest := by
        rcases List.mem_cons.mp hw with rfl | hr
        · exact absurd hcs hwn
        · exact hr
      obtain ⟨f, hf, hfm, hfn⟩ := ih ⟨w, hw', hwn⟩
      refine ⟨f, ?_, List.mem_cons_of_mem c hfm, hfn⟩
      simpa [randFood, hany] using hf
    · have hany : snake.any (fun s => EQ s c) = false := by
        rw [← Bool.not_eq_true, List.any_eq_true]
        rintro ⟨s, hs, hseq⟩
        exact hcs ((EQ_iff s c).mp hseq ▸ hs)
      exact ⟨c, by simp [randFood, hany], List.mem_cons_self c rest, hcs⟩

/-- C6: for every grid dimension and snake occupying fewer than `N * N`
distinct cells, the rejection-sampling food spawner — run on the canonical
exhaustive candidate sequence standing in for the random draws — terminates
with `some` cell that lies on the grid and is not on the snake. -/
theorem randFood_spec (N : Nat) (snake : List Vec)
    (hocc : snake.toFinset.card < N * N) :
    ∃ f, randFood N snake (allCells N) = some f ∧ inGrid N f ∧ f ∉ snake := by
  have hN : 0 < N := by
    rcases Nat.eq_zero_or_pos N with h0 | h; · rw [h0] at hocc; omega
    exact h
  have hex : ∃ c ∈ allCells N, c ∉ snake := by
    by_contra hall
    push_neg at hall
    have hsub : (allCells N).toFinset ⊆ snake.toFinset := by
      intro c hc
      rw [List.mem_toFinset] at hc ⊢
      exact hall c hc
    have hcard := Finset.card_le_card hsub
    rw [List.toFinset_card_of_nodup (nodup_allCells N), length_allCells] at hcard
    omega
  obtain ⟨f, hf, hmem, hnot⟩ := randFood_first_free N snake (allCells N) hex
  exact ⟨f, hf, (mem_allCells N hN f).mp hmem, hnot⟩

theorem randFood_spec_witness :
    ∃ f, randFood 2 [⟨0, 0⟩, ⟨1, 0⟩, ⟨0, 1⟩] (allCells 2) = some f ∧
      inGrid 2 f ∧ f ∉ ([⟨0, 0⟩, ⟨1, 0⟩, ⟨0, 1⟩] : List Vec) :=
  randFood_spec 2 [⟨0, 0⟩, ⟨1, 0⟩, ⟨0, 1⟩] (by decide)

theorem getDirForCode_unit (code : String) (d : Vec)
    (h : getDirForCode code = some d) : isUnitDir d := by
  unfold getDirForCode at h
  split_ifs at h <;> simp_all [isUnitDir]

theorem classifySwipe_unit (dx dy : Int) (d : Vec)
    (h : classifySwipe dx dy = some d) : isUnitDir d := by
  unfold classifySwipe at h
  simp only [] at h
  split_ifs at h <;> cases h <;> decide

theorem onKey_eq_commit (code : String) (st : GameState) (d : Vec)
    (hcd : getDirForCode code = some d) (hop : opposite d st.dir = false) :
    onKey code st = { st with nextDir := d, grace := 250 } := by
  simp [onKey, hcd, hop]

theorem onKey_eq_reject (code : String) (st : GameState) (d : Vec)
    (hcd : getDirForCode code = some d) (hop : opposite d st.dir = true) :
    onKey code st = { st with grace := 250 } := by
  simp [onKey, hcd, hop]

theorem onKey_eq_noop (code : String) (st : GameState)
    (hcd : getDirForCode code = none) : onKey code st = st := by
  simp [onKey, hcd]

theorem touch_eq_commit (dx dy : Int) (st : GameState) (d : Vec)
    (hsw : classifySwipe dx dy = some d) (hop : opposite d st.dir = false) :
    handleTouchEnd dx dy st = { st with nextDir := d, grace := 250 } := by
  simp [handleTouchEnd, hsw, hop]

theorem touch_eq_reject (dx dy : Int) (st : GameState) (d : Vec)
    (hsw : classifySwipe dx dy = some d) (hop : opposite d st.dir = true) :
    handleTouchEnd dx dy st = st := by
  simp [handleTouchEnd, hsw, hop]

theorem touch_eq_noop (dx dy : Int) (st : GameState)
    (hsw : classifySwipe dx dy = none) : handleTouchEnd dx dy st = st := by
  simp [handleTouchEnd, hsw]

theorem committedDir_unit (st : GameState) (hd : isUnitDir st.dir)
    (hn : isUnitDir st.nextDir) : isUnitDir (committedDir st) := by
  unfold committedDir
  split
  · exact hd
  · exact hn

theorem invariant_step (fg : Nat → List Vec → Vec) (best : Nat) (st : GameState)
    (h : Invariant st) : Invariant (step fg best st).st := by
  obtain ⟨hgrid, hnodup, hlen, hdir, hnext⟩ := h
  have hcd := committedDir_unit st hdir hnext
  by_cases hc : collides st = true
  · by_cases hg : st.grace ≤ 0
    · rw [step_eq_gameOver fg best st hc hg]
      exact ⟨hgrid, hnodup, hlen, hcd, hnext⟩
    · rw [step_eq_graceSave fg best st hc hg]
      exact ⟨hgrid, hnodup, hlen, hcd, hnext⟩
  · have hc' : collides st = false := by
      rw [← Bool.not_eq_true]; exact hc
    have hwall : hitWallB st.gridSize (candidateHead st) = false := by
      have := congrArg (fun b => b) hc'
      unfold collides at hc'
      rcases Bool.or_eq_false_iff.mp hc' with ⟨h1, _⟩
      exact h1
    have hself : hitSelfB st.snake (candidateHead st) = false := by
      unfold collides at hc'
      rcases Bool.or_eq_false_iff.mp hc' with ⟨_, h2⟩
      exact h2
    have hin : inGrid st.gridSize (candidateHead st) := by
      by_contra hno
      rw [← hitWallB_iff st.gridSize (candidateHead st)] at hno
      rw [hwall] at hno
      cases hno
    have hnotmem : candidateHead st ∉ st.snake := by
      intro hm
      have := (hitSelfB_iff st.snake (candidateHead st)).mpr hm
      rw [hself] at this
      cases this
    by_cases hf : candidateHead st = st.food
    · rw [step_eq_eat fg best st hc' hf]
      refine ⟨?_, List.nodup_cons.mpr ⟨hnotmem, hnodup⟩, ?_, hcd, hnext⟩
      · intro c hcmem
        rcases List.mem_cons.mp hcmem with rfl | hmem
        · exact hin
        · exact hgrid c hmem
      · simp only [List.length_cons]
        omega
    · rw [step_eq_move fg best st hc' hf]
      refine ⟨?_, ?_, ?_, hcd, hnext⟩
      · intro c hcmem
        have hup := (List.dropLast_sublist (candidateHead st :: st.snake)).subset hcmem
        rcases List.mem_cons.mp hup with rfl | hmem
        · exact hin
        · exact hgrid c hmem
      · exact (List.dropLast_sublist _).nodup (List.nodup_cons.mpr ⟨hnotmem, hnodup⟩)
      · rw [List.length_dropLast, List.length_cons]
        omega

theorem invariant_onKey (code : String) (st : GameState) (h : Invariant st) :
    Invariant (onKey code st) := by
  obtain ⟨hgrid, hnodup, hlen, hdir, hnext⟩ := h
  cases hcd : getDirForCode code with
  | none =>
    rw [onKey_eq_noop code st hcd]
    exact ⟨hgrid, hnodup, hlen, hdir, hnext⟩
  | some d =>
    have hu := getDirForCode_unit code d hcd
    by_cases hop : opposite d st.dir = true
    · rw [onKey_eq_reject code st d hcd hop]
      exact ⟨hgrid, hnodup, hlen, hdir, hnext⟩
    · rw [onKey_eq_commit code st d hcd (eq_false_of_ne_true hop)]
      exact ⟨hgrid, hnodup, hlen, hdir, hu⟩

theorem invariant_touch (dx dy : Int) (st : GameState) (h : Invariant st) :
    Invariant (handleTouchEnd dx dy st) := by
  obtain ⟨hgrid, hnodup, hlen, hdir, hnext⟩ := h
  cases hcd : classifySwipe dx dy with
  | none =>
    rw [touch_eq_noop dx dy st hcd]
    exact ⟨hgrid, hnodup, hlen, hdir, hnext⟩
  | some d =>
    have hu := classifySwipe_unit dx dy d hcd
    by_cases hop : opposite d st.dir = true
    · rw [touch_eq_reject dx dy st d hcd hop]
      exact ⟨hgrid, hnodup, hlen, hdir, hnext⟩
    · rw [touch_eq_commit dx dy st d hcd (eq_false_of_ne_true hop)]
      exact ⟨hgrid, hnodup, hlen, hdir, hu⟩

theorem invariant_reset (fg : Nat → List Vec → Vec) : Invariant (reset fg) := by
  have hs : (reset fg).snake = [⟨7, 7⟩, ⟨6, 7⟩] := rfl
  have hg : (reset fg).gridSize = 14 := rfl
  have hd : (reset fg).dir = ⟨1, 0⟩ := rfl
  have hn : (reset fg).nextDir = ⟨1, 0⟩ := rfl
  unfold Invariant
  rw [hs, hg, hd, hn]
  decide

/-- C8: the play invariant — snake cells on the grid, no duplicate cells,
length at least 2, and a unit current (and pending) direction — holds after
every reset and is preserved by every simulation tick and by both input
handlers, so it holds in every reachable play state. -/
theorem play_invariant :
    (∀ fg : Nat → List Vec → Vec, Invariant (reset fg)) ∧
    (∀ (fg : Nat → List Vec → Vec) (best : Nat) (st : GameState),
      Invariant st → Invariant (step fg best st).st) ∧
    (∀ (code : String) (st : GameState),
      Invariant st → Invariant (onKey code st)) ∧
    (∀ (dx dy : Int) (st : GameState),
      Invariant st → Invariant (handleTouchEnd dx dy st)) := by
  exact ⟨invariant_reset, invariant_step, invariant_onKey, invariant_touch⟩

theorem play_invariant_witness :
    Invariant (step fg0 0 stEat).st ∧ Invariant (onKey "ArrowUp" stEat) ∧
    Invariant (handleTouchEnd 0 45 stEat) ∧ Invariant (reset fg0) := by
  obtain ⟨h1, h2, h3, h4⟩ := play_invariant
  exact ⟨h2 fg0 0 stEat (by decide), h3 "ArrowUp" stEat (by decide),
    h4 0 45 stEat (by decide), h1 fg0⟩

/-- C9, counterexample: the startup read does not force a non-negative
integer for every possible slot content.  A slot holding the string of
negative five coerces to the finite JS number -5, so the sanitizing branch
`Number.isFinite(v) ? v : 0` keeps it and the loaded best score is
negative. -/
theorem loadBest_negative_cex :
    loadBest true (some (-5)) = -5 ∧ loadBest true (some (-5)) < 0 := by
  constructor <;> decide

/-- C9, amended: the loaded best score is 0 whenever persistence is
unavailable or the stored value coerces to a non-finite number (an absent
slot coerces to 0, since `getItem` yields `null` and `Number(null) = 0`);
but whenever the stored value coerces to a finite number the loaded best
score is exactly that number, which need be neither non-negative nor an
integer. -/
theorem loadBest_spec :
    (∀ coerced, loadBest false coerced = 0) ∧
    loadBest true none = 0 ∧
    (∀ v : ℚ, loadBest true (some v) = v) := by
  exact ⟨fun coerced => rfl, rfl, fun v => rfl⟩

/-- C10: every reset yields the same initial configuration — a 14-cell grid,
the two-cell snake with head `(7,7)` and tail `(6,7)`, both directions
`(1,0)`, score 0, a 170 ms tick interval, no grace — and, provided the food
sampler respects its contract of avoiding the snake (established for the
rejection sampler by the food-spawner theorem), a food cell off the snake. -/
theorem reset_spec (fg : Nat → List Vec → Vec)
    (hfg : fg 14 [⟨7, 7⟩, ⟨6, 7⟩] ∉ ([⟨7, 7⟩, ⟨6, 7⟩] : List Vec)) :
    (reset fg).gridSize = 14 ∧
    (reset fg).snake = [⟨7, 7⟩, ⟨6, 7⟩] ∧
    (reset fg).dir = ⟨1, 0⟩ ∧
    (reset fg).nextDir = ⟨1, 0⟩ ∧
    (reset fg).score = 0 ∧
    (reset fg).tickMs = 170 ∧
    (reset fg).grace = 0 ∧
    (reset fg).food ∉ (reset fg).snake := by
  exact ⟨rfl, rfl, rfl, rfl, rfl, rfl, rfl, hfg⟩

theorem reset_spec_witness :
    (reset fg0).gridSize = 14 ∧
    (reset fg0).snake = [⟨7, 7⟩, ⟨6, 7⟩] ∧
    (reset fg0).dir = ⟨1, 0⟩ ∧
    (reset fg0).nextDir = ⟨1, 0⟩ ∧
    (reset fg0).score = 0 ∧
    (reset fg0).tickMs = 170 ∧
    (reset fg0).grace = 0 ∧
    (reset fg0).food ∉ (reset fg0).snake :=
  reset_spec fg0 (by decide)

end Snake
